import Mathlib

/-!
# Verification of the tingadev-mini REST data provider

Shallow embedding of `src/services/dataProvider` (dataProvider.ts,
errorHandler.ts, utils.ts) in Lean 4.  JavaScript runtime values that flow
through the provider (parsed JSON bodies, `meta` records, header sets) are
modelled by the inductive type `Json`; JavaScript truthiness, property
access and the `||` operator are modelled explicitly so that the
truthiness-based fallbacks of the source (`result.data || result`,
`result.total || result.data?.length || 0`, `data.message || data.error ||
response.statusText`) are reproduced exactly.
-/

namespace DP

/-- Model of a JavaScript runtime value (a parsed JSON body, a `meta`
record, ...).  Numbers are modelled as integers: every number the provider
manipulates (ids, totals, lengths, status codes) is integral. -/
inductive Json where
  | null
  | bool (b : Bool)
  | num (n : Int)
  | str (s : String)
  | arr (elems : List Json)
  | obj (fields : List (String × Json))

mutual

/-- Decidable structural equality on `Json` values. -/
def Json.decEq : (a b : Json) → Decidable (a = b)
  | .null, .null => isTrue rfl
  | .bool a, .bool b =>
      if h : a = b then isTrue (by rw [h])
      else isFalse (fun hh => h (by injection hh))
  | .num a, .num b =>
      if h : a = b then isTrue (by rw [h])
      else isFalse (fun hh => h (by injection hh))
  | .str a, .str b =>
      if h : a = b then isTrue (by rw [h])
      else isFalse (fun hh => h (by injection hh))
  | .arr xs, .arr ys =>
      match Json.decEqList xs ys with
      | isTrue h => isTrue (by rw [h])
      | isFalse h => isFalse (fun hh => h (by injection hh))
  | .obj xs, .obj ys =>
      match Json.decEqFields xs ys with
      | isTrue h => isTrue (by rw [h])
      | isFalse h => isFalse (fun hh => h (by injection hh))
  | .null, .bool _ | .null, .num _ | .null, .str _
  | .null, .arr _ | .null, .obj _
  | .bool _, .null | .bool _, .num _ | .bool _, .str _
  | .bool _, .arr _ | .bool _, .obj _
  | .num _, .null | .num _, .bool _ | .num _, .str _
  | .num _, .arr _ | .num _, .obj _
  | .str _, .null | .str _, .bool _ | .str _, .num _
  | .str _, .arr _ | .str _, .obj _
  | .arr _, .null | .arr _, .bool _ | .arr _, .num _
  | .arr _, .str _ | .arr _, .obj _
  | .obj _, .null | .obj _, .bool _ | .obj _, .num _
  | .obj _, .str _ | .obj _, .arr _ => isFalse (fun h => Json.noConfusion h)

/-- Decidable equality on lists of `Json` values. -/
def Json.decEqList : (xs ys : List Json) → Decidable (xs = ys)
  | [], [] => isTrue rfl
  | [], _ :: _ => isFalse (fun h => List.noConfusion h)
  | _ :: _, [] => isFalse (fun h => List.noConfusion h)
  | x :: xs, y :: ys =>
      match Json.decEq x y, Json.decEqList xs ys with
      | isTrue h1, isTrue h2 => isTrue (by rw [h1, h2])
      | isFalse h1, _ => isFalse (fun h => by injection h with ha hb; exact h1 ha)
      | _, isFalse h2 => isFalse (fun h => by injection h with ha hb; exact h2 hb)

/-- Decidable equality on `Json` object field lists. -/
def Json.decEqFields : (xs ys : List (String × Json)) → Decidable (xs = ys)
  | [], [] => isTrue rfl
  | [], _ :: _ => isFalse (fun h => List.noConfusion h)
  | _ :: _, [] => isFalse (fun h => List.noConfusion h)
  | (k, x) :: xs, (l, y) :: ys =>
      if hk : k = l then
        match Json.decEq x y, Json.decEqFields xs ys with
        | isTrue h1, isTrue h2 => isTrue (by rw [hk, h1, h2])
        | isFalse h1, _ => isFalse (fun h => by
            injection h with ha hb
            exact h1 (congrArg Prod.snd ha))
        | _, isFalse h2 => isFalse (fun h => by injection h with ha hb; exact h2 hb)
      else isFalse (fun h => by
        injection h with ha hb
        exact hk (congrArg Prod.fst ha))

end

instance : DecidableEq Json := Json.decEq

/-- JavaScript truthiness: `null`, `false`, `0` and `""` are falsy;
every array and object (even empty ones) is truthy. -/
def Json.truthy : Json → Bool
  | .null => false
  | .bool b => b
  | .num n => n != 0
  | .str s => s != ""
  | .arr _ => true
  | .obj _ => true

/-- JavaScript property access `j.k`: `none` models `undefined`.
Property access on `null` throws a TypeError in JavaScript; theorems about
code paths that access properties of a body therefore carry a
`≠ Json.null` hypothesis rather than relying on this function's value
at `null`. -/
def Json.getProp : Json → String → Option Json
  | .obj fs, k => (fs.find? (fun p => p.1 = k)).map (·.2)
  | _, _ => none

/-- JavaScript `a || b` where `a` is a (possibly absent) property value:
an absent (`undefined`) or falsy `a` yields `b`. -/
def jsOrP (a : Option Json) (b : Json) : Json :=
  match a with
  | some v => if v.truthy then v else b
  | none => b

/-- JavaScript `a || b` on two present values. -/
def jsOr (a b : Json) : Json :=
  if a.truthy then a else b

/-- JavaScript `.length` on a value: arrays and strings have a length,
objects only via an explicit `length` field, other values yield
`undefined`. -/
def Json.dotLength : Json → Option Json
  | .arr xs => some (.num xs.length)
  | .str s => some (.num s.length)
  | .obj fs => Json.getProp (.obj fs) "length"
  | _ => none

/-- JavaScript optional chaining `x?.length` applied to a (possibly
absent) property value: `undefined` and `null` short-circuit to
`undefined`. -/
def optChainLength (a : Option Json) : Option Json :=
  match a with
  | none => none
  | some .null => none
  | some j => j.dotLength

/-! ## Response shaping (dataProvider.ts)

`handleRequest` returns `transformResponse ? transformResponse(data) : data`
for the parsed body `data`; each operation then shapes that value.  The
functions below embed the success-path shaping of each operation; the
failure path is modelled separately (`handleRequestE`). -/

/-- `transformResponse ? transformResponse(data) : data` from
`handleRequest` (success path; throwing transforms are modelled in
`innerResult`). -/
def applyTr (tr : Option (Json → Json)) (body : Json) : Json :=
  match tr with
  | some f => f body
  | none => body

/-- The `result.data || result` shaping shared by the operations. -/
def unwrapData (result : Json) : Json :=
  jsOrP (result.getProp "data") result

/-- `getOne`: `data: result.data || result`. -/
def getOneData (tr : Option (Json → Json)) (body : Json) : Json :=
  unwrapData (applyTr tr body)

/-- `getList`: `data: result.data || result`. -/
def getListData (tr : Option (Json → Json)) (body : Json) : Json :=
  unwrapData (applyTr tr body)

/-- `getList`: `total: result.total || result.data?.length || 0`. -/
def getListTotal (tr : Option (Json → Json)) (body : Json) : Json :=
  let result := applyTr tr body
  jsOrP (result.getProp "total")
    (jsOrP (optChainLength (result.getProp "data")) (.num 0))

/-- `create`: `data: result.data || result`. -/
def createData (tr : Option (Json → Json)) (body : Json) : Json :=
  unwrapData (applyTr tr body)

/-- `update`: `data: result.data || result`. -/
def updateData (tr : Option (Json → Json)) (body : Json) : Json :=
  unwrapData (applyTr tr body)

/-- `custom`: `data: result.data || result`. -/
def customData (tr : Option (Json → Json)) (body : Json) : Json :=
  unwrapData (applyTr tr body)

/-- `deleteOne`: `data: result.data || result || { id }`. -/
def deleteOneData (idv : Json) (tr : Option (Json → Json)) (body : Json) : Json :=
  let result := applyTr tr body
  jsOrP (result.getProp "data") (jsOr result (.obj [("id", idv)]))

/-! ## Error normalizer (errorHandler.ts, `handleError`) -/

/-- A transport response descriptor as observed by the provider: the
success flag, numeric status code, status text, and the outcome of
`response.json()` (`Except.error e` models a body-parse failure throwing
the value `e`). -/
structure RespDesc where
  ok : Bool
  status : Int
  statusText : String
  body : Except Json Json

/-- The `ApiError` produced by `handleError`: `message` is a `Json`
value because the source assigns `data.message || data.error ||
response.statusText` without coercing to a string; `none` models an
`undefined` field. -/
structure ApiError where
  message : Json
  statusCode : Option Int
  errors : Option Json

instance : DecidableEq ApiError := fun a b =>
  match a, b with
  | ⟨m, s, e⟩, ⟨m', s', e'⟩ =>
    if h : m = m' ∧ s = s' ∧ e = e' then
      isTrue (by rw [h.1, h.2.1, h.2.2])
    else isFalse (fun hh => h (by cases hh; exact ⟨rfl, rfl, rfl⟩))

/-- `handleError(response)` from errorHandler.ts.  It sets
`statusCode = response.status`, then tries `response.json()`:

* on success with a non-null body `data`, it assigns
  `error.message = data.message || data.error || response.statusText`
  and `error.errors = data.errors`;
* a null parsed body makes the property access `data.message` throw,
  which lands in the same `catch` as a parse failure:
  `error.message = response.statusText || 'An error occurred'`. -/
def handleError (r : RespDesc) : ApiError :=
  match r.body with
  | .ok .null =>
      { message := .str (if r.statusText = "" then "An error occurred" else r.statusText)
        statusCode := some r.status
        errors := none }
  | .ok data =>
      { message := jsOrP (data.getProp "message")
          (jsOrP (data.getProp "error") (.str r.statusText))
        statusCode := some r.status
        errors := data.getProp "errors" }
  | .error _ =>
      { message := .str (if r.statusText = "" then "An error occurred" else r.statusText)
        statusCode := some r.status
        errors := none }

/-! ## Request pipeline and error-handler seam (dataProvider.ts,
`handleRequest`) -/

/-- A value thrown inside `handleRequest`: either the `ApiError` produced
by `handleError` for a non-ok response, or a raw thrown value (transport
throw, body-parse throw on the success path, transform throw). -/
inductive ErrVal where
  | api (e : ApiError)
  | raw (j : Json)

instance : DecidableEq ErrVal := fun a b =>
  match a, b with
  | .api e, .api e' =>
      if h : e = e' then isTrue (by rw [h])
      else isFalse (fun hh => h (by injection hh))
  | .raw j, .raw j' =>
      if h : j = j' then isTrue (by rw [h])
      else isFalse (fun hh => h (by injection hh))
  | .api _, .raw _ => isFalse (fun h => ErrVal.noConfusion h)
  | .raw _, .api _ => isFalse (fun h => ErrVal.noConfusion h)

/-- Outcome of the awaited `httpClient(url, ...)` call: either the
client threw, or a response descriptor came back. -/
inductive Outcome where
  | throw (e : Json)
  | resp (r : RespDesc)

/-- The body of `handleRequest`'s `try` block: a transport throw
propagates; a non-ok response throws `await handleError(response)`;
otherwise `await response.json()` may throw; otherwise the optional
response transform is applied (and may itself throw). -/
def innerResult (tr : Option (Json → Except Json Json)) (out : Outcome) :
    Except ErrVal Json :=
  match out with
  | .throw e => .error (.raw e)
  | .resp r =>
      if r.ok then
        match r.body with
        | .error pe => .error (.raw pe)
        | .ok data =>
            match tr with
            | none => .ok data
            | some f =>
                match f data with
                | .ok v => .ok v
                | .error e => .error (.raw e)
      else .error (.api (handleError r))

/-- `handleRequest`'s `catch` clause: a caught error is replaced by
`customErrorHandler(error)` when a handler is configured, and rethrown
unchanged otherwise. -/
def handleRequestE (tr : Option (Json → Except Json Json))
    (handler : Option (ErrVal → ErrVal)) (out : Outcome) : Except ErrVal Json :=
  match innerResult tr out with
  | .ok v => .ok v
  | .error e =>
      .error (match handler with
        | some h => h e
        | none => e)

/-- An operation's overall outcome: the per-operation result shaping
`shape` applied to `handleRequest`'s value (a rejection from
`handleRequest` propagates through the operation's `await` untouched). -/
def opResultE (shape : Json → Json) (tr : Option (Json → Except Json Json))
    (handler : Option (ErrVal → ErrVal)) (out : Outcome) : Except ErrVal Json :=
  (handleRequestE tr handler out).map shape

/-! ## URL builder (utils.ts, `generateResourceUrl`) -/

/-- The `while (cleanBaseUrl.endsWith('/')) cleanBaseUrl =
cleanBaseUrl.slice(0, -1)` loop: repeatedly drop the last character while
it is a `/`. -/
def stripTrailingSlashes : List Char → List Char
  | [] => []
  | c :: cs =>
      match stripTrailingSlashes cs with
      | [] => if c = '/' then [] else [c]
      | rest => c :: rest

/-- A record identifier: `string | number`, opaque beyond string
coercion. -/
def RecordId : Type := String ⊕ Int

/-- JavaScript template-literal coercion of an id. -/
def idToString : RecordId → String
  | .inl s => s
  | .inr n => toString n

/-- `generateResourceUrl(baseUrl, resource, id?)` from utils.ts. -/
def generateResourceUrl (baseUrl resource : String) (id : Option RecordId) : String :=
  let cleanBaseUrl := String.mk (stripTrailingSlashes baseUrl.data)
  let cleanResource := resource.trim
  let path :=
    match id with
    | some i => cleanResource ++ "/" ++ idToString i
    | none => cleanResource
  cleanBaseUrl ++ "/" ++ path

/-! ## String coercion and URLSearchParams (platform built-ins)

`buildQueryParams` and `custom` rely on the platform's `String(value)`
coercion and `URLSearchParams` (the `application/x-www-form-urlencoded`
serializer).  These are not repository code; they are modelled here with
their standard behaviour: safe characters (ASCII alphanumerics and
`*-._`) pass through, space becomes `+`, every other character is
percent-encoded byte-wise from its UTF-8 encoding with uppercase hex
digits. -/

/-- JavaScript `String(value)`, recursion bounded by an explicit fuel so
that the definition reduces definitionally; the fuel only limits the
nesting depth of arrays inside arrays, and `jsToString` supplies a fuel
far beyond any value the provider serializes. -/
def jsToStringFuel : Nat → Json → String
  | _, .null => "null"
  | _, .bool b => if b then "true" else "false"
  | _, .num n => toString n
  | _, .str s => s
  | _, .obj _ => "[object Object]"
  | 0, .arr _ => ""
  | fuel + 1, .arr xs =>
      String.intercalate "," (xs.map (fun j =>
        match j with
        | .null => ""
        | j => jsToStringFuel fuel j))

/-- JavaScript `String(value)` for the values the provider serializes
(`null → "null"`, booleans, decimal integers, strings unchanged, arrays
join their elements with `,` with `null` elements rendered empty, plain
objects render as `"[object Object]"`). -/
def jsToString (j : Json) : String :=
  jsToStringFuel 1000 j

/-- Uppercase hexadecimal digit. -/
def hexDigit (n : Nat) : Char :=
  if n < 10 then Char.ofNat (48 + n) else Char.ofNat (55 + n)

/-- `%XX` escape of one byte. -/
def percentByte (b : Nat) : String :=
  String.mk ['%', hexDigit (b / 16), hexDigit (b % 16)]

/-- UTF-8 bytes of a character (standard encoding). -/
def utf8Bytes (c : Char) : List Nat :=
  let n := c.toNat
  if n < 0x80 then [n]
  else if n < 0x800 then [0xC0 + n / 0x40, 0x80 + n % 0x40]
  else if n < 0x10000 then
    [0xE0 + n / 0x1000, 0x80 + (n / 0x40) % 0x40, 0x80 + n % 0x40]
  else
    [0xF0 + n / 0x40000, 0x80 + (n / 0x1000) % 0x40,
     0x80 + (n / 0x40) % 0x40, 0x80 + n % 0x40]

/-- Characters the `x-www-form-urlencoded` serializer leaves unescaped. -/
def isFormSafe (c : Char) : Bool :=
  ('A' ≤ c && c ≤ 'Z') || ('a' ≤ c && c ≤ 'z') || ('0' ≤ c && c ≤ '9') ||
  c = '*' || c = '-' || c = '.' || c = '_'

/-- `x-www-form-urlencoded` escaping of one string. -/
def formEncode (s : String) : String :=
  String.join (s.data.map (fun c =>
    if isFormSafe c then String.mk [c]
    else if c = ' ' then "+"
    else String.join ((utf8Bytes c).map percentByte)))

/-- `URLSearchParams.toString()` on an ordered list of appended
key/value pairs. -/
def searchParamsToString (ps : List (String × String)) : String :=
  String.intercalate "&" (ps.map (fun p => formEncode p.1 ++ "=" ++ formEncode p.2))

/-- Hex digit value (0 for non-hex characters). -/
def hexVal (c : Char) : Nat :=
  if '0' ≤ c && c ≤ '9' then c.toNat - 48
  else if 'A' ≤ c && c ≤ 'F' then c.toNat - 55
  else if 'a' ≤ c && c ≤ 'f' then c.toNat - 87
  else 0

/-- Percent-decoding of a query-string component (`+` is a space,
`%XX` an escaped byte).  Decoded bytes are read back as characters
directly, which is exact for ASCII output — every string the provider's
serializer is checked against here is ASCII. -/
def percentDecodeChars : List Char → List Char
  | [] => []
  | '+' :: rest => ' ' :: percentDecodeChars rest
  | '%' :: h :: l :: rest =>
      Char.ofNat (16 * hexVal h + hexVal l) :: percentDecodeChars rest
  | c :: rest => c :: percentDecodeChars rest

/-- Percent-decoding of a string. -/
def percentDecode (s : String) : String :=
  String.mk (percentDecodeChars s.data)

/-- Splitting a character list on every occurrence of a separator. -/
def splitOnChar (sep : Char) : List Char → List (List Char)
  | [] => [[]]
  | c :: rest =>
      let r := splitOnChar sep rest
      if c = sep then [] :: r
      else
        match r with
        | [] => [[c]]
        | g :: gs => (c :: g) :: gs

/-- Splitting a query entry at its first `=` (`none` when the entry has
no `=`). -/
def splitFirstEq : List Char → List Char × Option (List Char)
  | [] => ([], none)
  | '=' :: rest => ([], some rest)
  | c :: rest =>
      let r := splitFirstEq rest
      (c :: r.1, r.2)

/-- Decoding a query string back into its key/value pairs, the way
`new URLSearchParams(queryString)` reads it: split on `&`, split each
entry at its first `=` (a missing `=` means an empty value),
percent-decode both sides. -/
def parseQueryString (s : String) : List (String × String) :=
  if s = "" then []
  else
    (splitOnChar '&' s.data).map (fun kv =>
      match splitFirstEq kv with
      | (k, none) => (String.mk (percentDecodeChars k), "")
      | (k, some v) => (String.mk (percentDecodeChars k), String.mk (percentDecodeChars v)))

/-! ## Query serializer (utils.ts, `buildQueryParams`) -/

/-- Sort order (`'asc' | 'desc'`). -/
inductive SortOrder where
  | asc
  | desc
deriving DecidableEq

/-- Rendering of a sort order in the query string. -/
def SortOrder.render : SortOrder → String
  | .asc => "asc"
  | .desc => "desc"

/-- A sort descriptor `{ field, order }`. -/
structure SortSpec where
  field : String
  order : SortOrder

/-- The ten filter operators of types.ts. -/
inductive FilterOp where
  | eq | ne | lt | lte | gt | gte
  | opIn | nin | contains | ncontains
deriving DecidableEq

/-- Rendering of a filter operator in the query string. -/
def FilterOp.render : FilterOp → String
  | .eq => "eq"
  | .ne => "ne"
  | .lt => "lt"
  | .lte => "lte"
  | .gt => "gt"
  | .gte => "gte"
  | .opIn => "in"
  | .nin => "nin"
  | .contains => "contains"
  | .ncontains => "ncontains"

/-- A filter descriptor `{ field, operator, value }`. -/
structure Filter where
  field : String
  operator : FilterOp
  value : Json

/-- A pagination descriptor `{ page, pageSize }`. -/
structure Pagination where
  page : Int
  pageSize : Int

/-- The argument record of `buildQueryParams`. -/
structure QueryInput where
  pagination : Option Pagination
  sort : Option (List SortSpec)
  filters : Option (List Filter)

/-- The ordered key/value pairs `buildQueryParams` appends to its
`URLSearchParams`: pagination (`page`, then `pageSize`), then one
`sort` entry per element in input order, then one
`filter[field][operator]` entry per element in input order.  The
source guards the sort and filter sections with `length > 0`, which maps
an empty list to no entries exactly as mapping over the empty list
does. -/
def buildQueryPairs (params : QueryInput) : List (String × String) :=
  (match params.pagination with
    | some pg => [("page", toString pg.page), ("pageSize", toString pg.pageSize)]
    | none => []) ++
  (match params.sort with
    | some ss => ss.map (fun s => ("sort", s.field ++ ":" ++ s.order.render))
    | none => []) ++
  (match params.filters with
    | some fs => fs.map (fun f =>
        ("filter[" ++ f.field ++ "][" ++ f.operator.render ++ "]", jsToString f.value))
    | none => [])

/-- `buildQueryParams` from utils.ts: the pairs above serialized by
`URLSearchParams.toString()`. -/
def buildQueryParams (params : QueryInput) : String :=
  searchParamsToString (buildQueryPairs params)

/-! ## Custom-call URL resolution (dataProvider.ts, `custom`) -/

/-- The query-string suffix `custom` appends: nothing when no query
record is supplied; otherwise `"?" ++ qs` for the serialized entries
`qs` unless that string is empty (`queryString ? ... : fullUrl`). -/
def customQuerySuffix (query : Option (List (String × Json))) : String :=
  match query with
  | none => ""
  | some q =>
      let qs := searchParamsToString (q.map (fun p => (p.1, jsToString p.2)))
      if qs = "" then "" else "?" ++ qs

/-- JavaScript `s.startsWith(p)`. -/
def jsStartsWith (s p : String) : Bool :=
  p.data.isPrefixOf s.data

/-- The full URL `custom` requests: the target verbatim when
`url.startsWith('http')`, else `generateResourceUrl(apiUrl, url)`; the
query entries (each value coerced by `String(value)`) are appended in
either case. -/
def customFullUrl (apiUrl url : String) (query : Option (List (String × Json))) : String :=
  let fullUrl := if jsStartsWith url "http" then url else generateResourceUrl apiUrl url none
  fullUrl ++ customQuerySuffix query

/-! ## JavaScript object spread (header and option merging)

`handleRequest` builds `{'Content-Type': ..., ...headers,
...(options.headers || {})}` and every operation builds its request
options as an object literal ending in `...meta`.  A JavaScript object
is modelled as an insertion-ordered association list with unique keys;
assigning a key that already exists overwrites in place, a new key is
appended. -/

/-- One spread assignment `target[k] = v`. -/
def objInsert {α : Type} : List (String × α) → String → α → List (String × α)
  | [], k, v => [(k, v)]
  | p :: rest, k, v =>
      if p.1 = k then (k, v) :: rest else p :: objInsert rest k v

/-- Spreading `over` into `base`: assign each pair of `over` in order. -/
def objSpread {α : Type} (base over : List (String × α)) : List (String × α) :=
  over.foldl (fun acc p => objInsert acc p.1 p.2) base

/-- First-occurrence lookup (what reading a key off the built object
yields, since keys are unique in any list built by spreads). -/
def olookup {α : Type} (fs : List (String × α)) (k : String) : Option α :=
  (fs.find? (fun p => p.1 = k)).map (·.2)

/-- Last-occurrence lookup in a raw pair list: the value a JavaScript
object literal retains when the same key is written repeatedly. -/
def lastLookup {α : Type} : List (String × α) → String → Option α
  | [], _ => none
  | p :: rest, k =>
      match lastLookup rest k with
      | some v => some v
      | none => if p.1 = k then some p.2 else none

/-- The header object `handleRequest` passes to the transport:
`{'Content-Type': 'application/json', ...configHeaders,
...perCallHeaders}`. -/
def mergedHeaders (configHeaders perCallHeaders : List (String × String)) :
    List (String × String) :=
  objSpread (objSpread [("Content-Type", "application/json")] configHeaders)
    perCallHeaders

/-! ## Request options per operation (the object literals each operation
passes to `handleRequest`, ending in `...meta`) -/

/-- `getList`: `{ method: 'GET', ...meta }`. -/
def getListOptions (meta : List (String × Json)) : List (String × Json) :=
  objSpread [("method", .str "GET")] meta

/-- `getOne`: `{ method: 'GET', ...meta }`. -/
def getOneOptions (meta : List (String × Json)) : List (String × Json) :=
  objSpread [("method", .str "GET")] meta

/-- `create`: `{ method: 'POST', body: JSON.stringify(body), ...meta }`
(the serialized body is abstracted as a string). -/
def createOptions (bodyStr : String) (meta : List (String × Json)) :
    List (String × Json) :=
  objSpread [("method", .str "POST"), ("body", .str bodyStr)] meta

/-- `update`: `{ method: 'PUT', body: JSON.stringify(body), ...meta }`. -/
def updateOptions (bodyStr : String) (meta : List (String × Json)) :
    List (String × Json) :=
  objSpread [("method", .str "PUT"), ("body", .str bodyStr)] meta

/-- `deleteOne`: `{ method: 'DELETE', ...meta }`. -/
def deleteOneOptions (meta : List (String × Json)) : List (String × Json) :=
  objSpread [("method", .str "DELETE")] meta

/-- `custom`: `{ method, body, headers: customHeaders, ...meta }` (the
`method`, serialized `body` and per-call `headers` values are abstracted
as the `Json` values put at those keys). -/
def customOptions (method body headers : Json) (meta : List (String × Json)) :
    List (String × Json) :=
  objSpread [("method", method), ("body", body), ("headers", headers)] meta

/-! ## Observers used to state claims -/

/-- Whether a value is a non-empty string (the shape the spec promises
for a normalized error's message). -/
def Json.isNonEmptyStr : Json → Bool
  | .str s => s != ""
  | _ => false

/-- Whether a field of a body is absent or holds a string (the shape
under which the message fallback chain is guaranteed to produce a
string). -/
def strOrAbsent (data : Json) (k : String) : Bool :=
  match data.getProp k with
  | none => true
  | some (.str _) => true
  | _ => false

/-- A response transform that wraps the body it receives, used to
observe which value the transform is applied to. -/
def wrapW (j : Json) : Json :=
  Json.obj [("w", j)]

/-! ## General lemmas -/

theorem stripTrailingSlashes_append_slash (cs : List Char) :
    stripTrailingSlashes (cs ++ ['/']) = stripTrailingSlashes cs := by
  induction cs with
  | nil => simp [stripTrailingSlashes]
  | cons c cs ih =>
      have ih' : stripTrailingSlashes (cs.append ['/']) = stripTrailingSlashes cs := ih
      simp only [List.cons_append, stripTrailingSlashes, ih']

theorem stripTrailingSlashes_decomp (cs : List Char) :
    ∃ k, cs = stripTrailingSlashes cs ++ List.replicate k '/' := by
  induction cs with
  | nil => exact ⟨0, rfl⟩
  | cons c cs ih =>
      obtain ⟨k, hk⟩ := ih
      cases hEq : stripTrailingSlashes cs with
      | nil =>
          rw [hEq] at hk
          by_cases hc : c = '/'
          · refine ⟨k + 1, ?_⟩
            simp only [stripTrailingSlashes, hEq, hc, if_pos]
            simp only [List.nil_append] at hk ⊢
            rw [hk, List.replicate_succ]
          · refine ⟨k, ?_⟩
            simp only [stripTrailingSlashes, hEq, hc, if_neg, not_false_iff]
            simp only [List.nil_append] at hk
            simp [hk]
      | cons r rs =>
          rw [hEq] at hk
          refine ⟨k, ?_⟩
          simp only [stripTrailingSlashes, hEq]
          simp [hk]

theorem stripTrailingSlashes_idem (cs : List Char) :
    stripTrailingSlashes (stripTrailingSlashes cs) = stripTrailingSlashes cs := by
  induction cs with
  | nil => rfl
  | cons c cs ih =>
      cases hEq : stripTrailingSlashes cs with
      | nil =>
          by_cases hc : c = '/'
          · have h1 : stripTrailingSlashes (c :: cs) = [] := by
              simp [stripTrailingSlashes, hEq, hc]
            rw [h1]
            rfl
          · have h1 : stripTrailingSlashes (c :: cs) = [c] := by
              simp [stripTrailingSlashes, hEq, hc]
            rw [h1]
            simp [stripTrailingSlashes, hc]
      | cons r rs =>
          rw [hEq] at ih
          have h1 : stripTrailingSlashes (c :: cs) = c :: r :: rs := by
            simp [stripTrailingSlashes, hEq]
          have h2 : stripTrailingSlashes (c :: r :: rs) =
              match stripTrailingSlashes (r :: rs) with
              | [] => if c = '/' then [] else [c]
              | rest => c :: rest := rfl
          rw [h1, h2, ih]

theorem stripTrailingSlashes_getLast (cs : List Char) :
    (stripTrailingSlashes cs).getLast? ≠ some '/' := by
  induction cs with
  | nil => simp [stripTrailingSlashes]
  | cons c cs ih =>
      cases hEq : stripTrailingSlashes cs with
      | nil =>
          by_cases hc : c = '/'
          · simp [stripTrailingSlashes, hEq, hc]
          · simp [stripTrailingSlashes, hEq, hc, List.getLast?]
      | cons r rs =>
          rw [hEq] at ih
          simp only [stripTrailingSlashes, hEq]
          rw [List.getLast?_cons_cons]
          exact ih

theorem olookup_objInsert {α : Type} (fs : List (String × α)) (k : String) (v : α)
    (k' : String) :
    olookup (objInsert fs k v) k' = if k' = k then some v else olookup fs k' := by
  induction fs with
  | nil =>
      by_cases h : k' = k
      · simp [objInsert, olookup, h]
      · have h2 : ¬k = k' := fun hh => h hh.symm
        simp [objInsert, olookup, h, h2]
  | cons p rest ih =>
      by_cases hp : p.1 = k
      · by_cases h : k' = k
        · simp [objInsert, olookup, hp, h]
        · have h2 : ¬k = k' := fun hh => h hh.symm
          have h3 : ¬p.1 = k' := by rw [hp]; exact h2
          simp only [objInsert, hp, if_pos]
          simp only [olookup, List.find?]
          rw [show (decide (k = k')) = false by simp [h2]]
          rw [show (decide (p.1 = k')) = false by simp [h3]]
          simp [h]
      · by_cases h : k' = p.1
        · have hkk : ¬k' = k := fun hh => hp (h ▸ hh.symm ▸ rfl)
          simp only [objInsert, hp, if_neg, not_false_iff]
          simp only [olookup, List.find?]
          rw [show (decide (p.1 = k')) = true by simp [h.symm]]
          simp [hkk]
        · have h3 : ¬p.1 = k' := fun hh => h hh.symm
          simp only [objInsert, hp, if_neg, not_false_iff]
          simp only [olookup, List.find?] at ih ⊢
          rw [show (decide (p.1 = k')) = false by simp [h3]]
          simpa [olookup] using ih

theorem olookup_objSpread {α : Type} (base over : List (String × α)) (k : String) :
    olookup (objSpread base over) k =
      match lastLookup over k with
      | some v => some v
      | none => olookup base k := by
  induction over generalizing base with
  | nil => simp [objSpread, lastLookup]
  | cons p rest ih =>
      have hstep : objSpread base (p :: rest) = objSpread (objInsert base p.1 p.2) rest := rfl
      rw [hstep, ih, olookup_objInsert]
      cases hL : lastLookup rest k with
      | some v => simp [lastLookup, hL]
      | none =>
          by_cases h : k = p.1
          · simp only [lastLookup, hL, if_pos h, if_pos h.symm]
          · have h2 : ¬p.1 = k := fun hh => h hh.symm
            simp only [lastLookup, hL, if_neg h, if_neg h2]

/-! ## Claim theorems -/

/-- C8: for every base (with any number of trailing separators), resource
and optional id, `generateResourceUrl` returns
`cleanBase ++ "/" ++ trimmedResource` (with `++ "/" ++ id` when an id is
given, the id coerced to its string form), where `cleanBase` is the base
with all trailing `/` repeatedly stripped (witnessed by the
decomposition `base = cleanBase ++ "/"^k`, the absence of a trailing `/`
on `cleanBase`, and idempotence of the stripping); consequently
appending a further separator to the base never changes the output. -/
theorem claim_C8_url_builder (base resource : String) (id : Option RecordId) :
    generateResourceUrl base resource none =
      String.mk (stripTrailingSlashes base.data) ++ "/" ++ resource.trim ∧
    (∀ i : RecordId, generateResourceUrl base resource (some i) =
      String.mk (stripTrailingSlashes base.data) ++ "/" ++
        (resource.trim ++ "/" ++ idToString i)) ∧
    (∃ k, base.data = stripTrailingSlashes base.data ++ List.replicate k '/') ∧
    (stripTrailingSlashes base.data).getLast? ≠ some '/' ∧
    stripTrailingSlashes (stripTrailingSlashes base.data) =
      stripTrailingSlashes base.data ∧
    generateResourceUrl (base ++ "/") resource id = generateResourceUrl base resource id := by
  refine ⟨rfl, fun i => rfl, stripTrailingSlashes_decomp _,
    stripTrailingSlashes_getLast _, stripTrailingSlashes_idem _, ?_⟩
  have hdata : (base ++ "/").data = base.data ++ ['/'] := by
    simp [String.data_append]
  simp only [generateResourceUrl, hdata, stripTrailingSlashes_append_slash]

/-- C6: the header set handed to the transport is
`{'Content-Type': 'application/json', ...configHeaders, ...perCall}`:
per-call values win over configuration values, configuration values win
over the fixed default, on exact key match, and non-overlapping keys
from all sources survive; the spec's example merge is reproduced
literally. -/
theorem claim_C6_header_merge :
    (∀ (cfg pc : List (String × String)) (k : String),
      olookup (mergedHeaders cfg pc) k =
        match lastLookup pc k with
        | some v => some v
        | none =>
          match lastLookup cfg k with
          | some v => some v
          | none => if k = "Content-Type" then some "application/json" else none) ∧
    mergedHeaders [("A", "1"), ("B", "2")] [("B", "3"), ("C", "4")] =
      [("Content-Type", "application/json"), ("A", "1"), ("B", "3"), ("C", "4")] := by
  constructor
  · intro cfg pc k
    unfold mergedHeaders
    rw [olookup_objSpread, olookup_objSpread]
    cases lastLookup pc k with
    | some v => rfl
    | none =>
        cases lastLookup cfg k with
        | some v => rfl
        | none =>
            by_cases h : k = "Content-Type"
            · simp [olookup, h]
            · have h2 : ¬("Content-Type" = k) := fun hh => h hh.symm
              simp [olookup, h, h2]
  · rfl

/-- C9: `buildQueryParams` appends, in order, the pagination entries
(`page` then `pageSize`), one `sort=<field>:<order>` entry per sort
element in input order, and one `filter[<field>][<operator>]=<value>`
entry per filter element in input order; absent sections (and empty
sort/filter lists) contribute nothing, the empty input serializes to the
empty string, and the spec's example query decodes back to exactly its
four entries, each once. -/
theorem claim_C9_query_serializer :
    (∀ (pg : Pagination) (ss : List SortSpec) (fs : List Filter),
      buildQueryPairs ⟨some pg, some ss, some fs⟩ =
        [("page", toString pg.page), ("pageSize", toString pg.pageSize)] ++
        ss.map (fun s => ("sort", s.field ++ ":" ++ s.order.render)) ++
        fs.map (fun f =>
          ("filter[" ++ f.field ++ "][" ++ f.operator.render ++ "]", jsToString f.value))) ∧
    (∀ (ss : List SortSpec) (fs : List Filter),
      buildQueryPairs ⟨none, some ss, some fs⟩ =
        ss.map (fun s => ("sort", s.field ++ ":" ++ s.order.render)) ++
        fs.map (fun f =>
          ("filter[" ++ f.field ++ "][" ++ f.operator.render ++ "]", jsToString f.value))) ∧
    buildQueryParams ⟨none, none, none⟩ = "" ∧
    buildQueryParams ⟨none, some [], some []⟩ = "" ∧
    parseQueryString (buildQueryParams ⟨some ⟨2, 20⟩, some [⟨"name", .asc⟩],
        some [⟨"status", .eq, .str "active"⟩]⟩) =
      [("page", "2"), ("pageSize", "20"), ("sort", "name:asc"),
       ("filter[status][eq]", "active")] := by
  exact ⟨fun pg ss fs => rfl, fun ss fs => by simp [buildQueryPairs], rfl, rfl, by decide⟩

/-- C5: a `custom` target starting with the recognized scheme prefix
`http` is used verbatim; any other target is resolved against the base
address by the URL builder; the serialized query entries are appended in
either case. -/
theorem claim_C5_custom_url (apiUrl url : String)
    (query : Option (List (String × Json))) :
    (jsStartsWith url "http" = true →
      customFullUrl apiUrl url query = url ++ customQuerySuffix query) ∧
    (jsStartsWith url "http" = false →
      customFullUrl apiUrl url query =
        generateResourceUrl apiUrl url none ++ customQuerySuffix query) := by
  constructor <;> intro h <;> simp [customFullUrl, h]

/-- Witness for C5 at concrete inputs: an absolute target is requested
verbatim, a relative one is resolved against the base, and the query is
appended to both. -/
theorem claim_C5_custom_url_witness :
    customFullUrl "https://base.example" "https://ext.example/data"
        (some [("k", Json.str "v")]) =
      "https://ext.example/data" ++ customQuerySuffix (some [("k", Json.str "v")]) ∧
    customFullUrl "https://base.example" "analytics/stats"
        (some [("k", Json.str "v")]) =
      generateResourceUrl "https://base.example" "analytics/stats" none ++
        customQuerySuffix (some [("k", Json.str "v")]) :=
  ⟨(claim_C5_custom_url "https://base.example" "https://ext.example/data"
      (some [("k", Json.str "v")])).1 (by decide),
   (claim_C5_custom_url "https://base.example" "analytics/stats"
      (some [("k", Json.str "v")])).2 (by decide)⟩

/-- C10: every operation builds its request options as an object literal
that ends in `...meta`, so any key present in `meta` — in particular
`method`, `body` or `headers` — overrides the operation's fixed entry of
the same name. -/
theorem claim_C10_meta_spread (meta : List (String × Json)) (k : String) (v : Json)
    (h : lastLookup meta k = some v) :
    olookup (getListOptions meta) k = some v ∧
    olookup (getOneOptions meta) k = some v ∧
    (∀ b, olookup (createOptions b meta) k = some v) ∧
    (∀ b, olookup (updateOptions b meta) k = some v) ∧
    olookup (deleteOneOptions meta) k = some v ∧
    (∀ m b hs, olookup (customOptions m b hs meta) k = some v) := by
  refine ⟨?_, ?_, fun b => ?_, fun b => ?_, ?_, fun m b hs => ?_⟩ <;>
    simp [getListOptions, getOneOptions, createOptions, updateOptions,
      deleteOneOptions, customOptions, olookup_objSpread, h]

/-- Witness for C10: a `meta` carrying `method`, `body` and `headers`
keys overrides the fixed method of `getList`, the serialized body of
`create`, and the per-call headers of `custom`. -/
theorem claim_C10_meta_spread_witness :
    olookup (getListOptions [("method", Json.str "PATCH")]) "method" =
      some (Json.str "PATCH") ∧
    olookup (createOptions "serialized-variables"
        [("body", Json.str "override")]) "body" = some (Json.str "override") ∧
    olookup (customOptions (Json.str "GET") Json.null
        (Json.obj [("X-Import-Mode", Json.str "async")])
        [("headers", Json.obj [])]) "headers" = some (Json.obj []) :=
  ⟨(claim_C10_meta_spread [("method", Json.str "PATCH")] "method"
      (Json.str "PATCH") (by decide)).1,
   (claim_C10_meta_spread [("body", Json.str "override")] "body"
      (Json.str "override") (by decide)).2.2.1 "serialized-variables",
   (claim_C10_meta_spread [("headers", Json.obj [])] "headers"
      (Json.obj []) (by decide)).2.2.2.2.2 (Json.str "GET") Json.null
      (Json.obj [("X-Import-Mode", Json.str "async")])⟩

/-- C7: any failure inside an operation's request — transport throw,
non-ok response (normalized by `handleError`), body-parse failure, or a
throwing response transform — is caught at `handleRequest`'s single
`catch`; with an error handler configured, the handler receives the
error and the value it returns is what the operation propagates as its
failed outcome; without one, the error propagates unchanged (the
per-operation result shaping `shape` never alters a failed outcome). -/
theorem claim_C7_error_handler (tr : Option (Json → Except Json Json))
    (h : ErrVal → ErrVal) (out : Outcome) (e : ErrVal)
    (he : innerResult tr out = .error e) :
    handleRequestE tr (some h) out = .error (h e) ∧
    handleRequestE tr none out = .error e ∧
    (∀ shape : Json → Json,
      opResultE shape tr (some h) out = .error (h e) ∧
      opResultE shape tr none out = .error e) := by
  refine ⟨?_, ?_, fun shape => ⟨?_, ?_⟩⟩ <;>
    simp [handleRequestE, opResultE, he, Except.map]

/-- Witness for C7: a transport-level throw is handed to the configured
handler and the handler's return value is the failed outcome; with no
handler, the raw throw propagates unchanged. -/
theorem claim_C7_error_handler_witness :
    handleRequestE none (some (fun _ => ErrVal.raw (Json.str "handled")))
        (Outcome.throw (Json.str "boom")) =
      Except.error (ErrVal.raw (Json.str "handled")) ∧
    handleRequestE none none (Outcome.throw (Json.str "boom")) =
      Except.error (ErrVal.raw (Json.str "boom")) := by
  have H := claim_C7_error_handler none (fun _ => ErrVal.raw (Json.str "handled"))
    (Outcome.throw (Json.str "boom")) (ErrVal.raw (Json.str "boom")) rfl
  exact ⟨H.1, H.2.1⟩

/-- C1 counterexample: the body `{data: 0}` possesses a `data` property
(of value `0`), yet `getOne` returns the whole body rather than
`B.data`: the truthiness-based fallback `result.data || result`
discards the falsy `data` value. -/
theorem claim_C1_counterexample :
    Json.getProp (Json.obj [("data", Json.num 0)]) "data" = some (Json.num 0) ∧
    getOneData none (Json.obj [("data", Json.num 0)]) ≠ Json.num 0 ∧
    getOneData none (Json.obj [("data", Json.num 0)]) =
      Json.obj [("data", Json.num 0)] := by
  refine ⟨rfl, ?_, rfl⟩
  decide

/-- C1 amended: for every operation and every non-null parsed body `B`
(no transform configured), the `data` field of the result is `B.data`
when `B` has a `data` property with a truthy value; when the `data`
property is absent or falsy the payload is `B` itself — except that
`deleteOne` falls back to `{id}` when `B` is itself falsy. -/
theorem claim_C1_amended (B : Json) (hB : B ≠ Json.null) :
    (∀ d, B.getProp "data" = some d → d.truthy = true →
      getOneData none B = d ∧ getListData none B = d ∧ createData none B = d ∧
      updateData none B = d ∧ customData none B = d ∧
      (∀ idv, deleteOneData idv none B = d)) ∧
    ((∀ d, B.getProp "data" = some d → d.truthy = false) →
      getOneData none B = B ∧ getListData none B = B ∧ createData none B = B ∧
      updateData none B = B ∧ customData none B = B ∧
      (∀ idv, B.truthy = true → deleteOneData idv none B = B) ∧
      (∀ idv, B.truthy = false →
        deleteOneData idv none B = Json.obj [("id", idv)])) := by
  constructor
  · intro d hd ht
    refine ⟨?_, ?_, ?_, ?_, ?_, fun idv => ?_⟩ <;>
      simp [getOneData, getListData, createData, updateData, customData,
        deleteOneData, unwrapData, applyTr, jsOrP, hd, ht]
  · intro hfal
    have hun : unwrapData B = B := by
      cases hEq : B.getProp "data" with
      | none => simp [unwrapData, jsOrP, hEq]
      | some d => simp [unwrapData, jsOrP, hEq, hfal d hEq]
    have hdel : ∀ idv, deleteOneData idv none B =
        if B.truthy then B else Json.obj [("id", idv)] := by
      intro idv
      cases hEq : B.getProp "data" with
      | none => simp [deleteOneData, applyTr, jsOrP, jsOr, hEq]
      | some d => simp [deleteOneData, applyTr, jsOrP, jsOr, hEq, hfal d hEq]
    refine ⟨hun, hun, hun, hun, hun, fun idv hBt => ?_, fun idv hBf => ?_⟩
    · simp [hdel idv, hBt]
    · simp [hdel idv, hBf]

/-- Witness for C1 (amended): a wrapped body is unwrapped to its
truthy `data` value; a body without a `data` key is returned whole. -/
theorem claim_C1_amended_witness :
    getOneData none (Json.obj [("data", Json.obj [("id", Json.num 1)])]) =
      Json.obj [("id", Json.num 1)] ∧
    getOneData none (Json.obj [("id", Json.num 1)]) = Json.obj [("id", Json.num 1)] := by
  have H1 := (claim_C1_amended (Json.obj [("data", Json.obj [("id", Json.num 1)])])
    (by decide)).1 (Json.obj [("id", Json.num 1)]) (by decide) (by decide)
  have H2 := (claim_C1_amended (Json.obj [("id", Json.num 1)]) (by decide)).2
    (fun d hd => by
      have hnone : Json.getProp (Json.obj [("id", Json.num 1)]) "data" = none := rfl
      rw [hnone] at hd
      exact Option.noConfusion hd)
  exact ⟨H1.1, H2.1⟩

/-- C2 counterexample: with the wrapping transform and the body
`{data: "x"}`, the operation result is the unwrap of the transform's
output (`{w: {data: "x"}}`), not the transform applied to the
unwrapped payload (`{w: "x"}`): the transform receives the whole parsed
body and runs before the envelope unwrap, not after. -/
theorem claim_C2_counterexample :
    getOneData (some wrapW) (Json.obj [("data", Json.str "x")]) ≠
      wrapW (unwrapData (Json.obj [("data", Json.str "x")])) ∧
    getOneData (some wrapW) (Json.obj [("data", Json.str "x")]) =
      Json.obj [("w", Json.obj [("data", Json.str "x")])] := by
  refine ⟨?_, rfl⟩
  decide

/-- C2 amended: for every operation the configured response transform
is applied first, to the whole parsed body, and the envelope-unwrap
(and `getList`'s total computation) applies to the transform's output:
each operation with transform `f` on body `B` behaves exactly like the
same operation without a transform on body `f B`. -/
theorem claim_C2_amended (f : Json → Json) (B : Json) :
    getOneData (some f) B = getOneData none (f B) ∧
    getListData (some f) B = getListData none (f B) ∧
    getListTotal (some f) B = getListTotal none (f B) ∧
    createData (some f) B = createData none (f B) ∧
    updateData (some f) B = updateData none (f B) ∧
    customData (some f) B = customData none (f B) ∧
    (∀ idv, deleteOneData idv (some f) B = deleteOneData idv none (f B)) :=
  ⟨rfl, rfl, rfl, rfl, rfl, rfl, fun idv => rfl⟩

/-- C3 counterexample: the body `{total: 0, data: [null, null]}`
carries `total = 0`, but `getList` reports `2`: the truthiness fallback
`result.total || result.data?.length || 0` skips the falsy `total`. -/
theorem claim_C3_counterexample :
    Json.getProp (Json.obj [("total", Json.num 0),
        ("data", Json.arr [Json.null, Json.null])]) "total" = some (Json.num 0) ∧
    getListTotal none (Json.obj [("total", Json.num 0),
        ("data", Json.arr [Json.null, Json.null])]) = Json.num 2 :=
  ⟨rfl, rfl⟩

/-- C3 amended: for every non-null body `B` (no transform), the
returned `total` is `B.total` when that value is truthy; otherwise it is
the length of `B.data` when `B` has an array-valued `data` field;
otherwise (no `data` field, or a null `data`) it is `0`; in particular a
bare-array body, which has no `data` property, always yields `0`. -/
theorem claim_C3_amended (B : Json) (hB : B ≠ Json.null) :
    (∀ t, B.getProp "total" = some t → t.truthy = true →
      getListTotal none B = t) ∧
    ((∀ t, B.getProp "total" = some t → t.truthy = false) →
      (∀ xs, B.getProp "data" = some (Json.arr xs) →
        getListTotal none B = Json.num xs.length) ∧
      (B.getProp "data" = none → getListTotal none B = Json.num 0) ∧
      (B.getProp "data" = some Json.null → getListTotal none B = Json.num 0)) ∧
    (∀ xs, B = Json.arr xs → getListTotal none B = Json.num 0) := by
  refine ⟨?_, ?_, ?_⟩
  · intro t ht htr
    simp [getListTotal, applyTr, jsOrP, ht, htr]
  · intro hfal
    have htot : getListTotal none B =
        jsOrP (optChainLength (B.getProp "data")) (.num 0) := by
      cases hEq : B.getProp "total" with
      | none => simp [getListTotal, applyTr, jsOrP, hEq]
      | some t => simp [getListTotal, applyTr, jsOrP, hEq, hfal t hEq]
    refine ⟨?_, ?_, ?_⟩
    · intro xs hd
      rw [htot, hd]
      by_cases hxs : xs.length = 0
      · simp [optChainLength, Json.dotLength, jsOrP, Json.truthy, hxs]
      · simp [optChainLength, Json.dotLength, jsOrP, Json.truthy, hxs]
    · intro hd
      rw [htot, hd]
      simp [optChainLength, jsOrP]
    · intro hd
      rw [htot, hd]
      simp [optChainLength, jsOrP]
  · intro xs hxs
    subst hxs
    rfl

/-- Witness for C3 (amended): a truthy `total` is reported verbatim, a
missing `total` falls back to the `data` array's length, and a
bare-array body reports `0`. -/
theorem claim_C3_amended_witness :
    getListTotal none (Json.obj [("total", Json.num 7)]) = Json.num 7 ∧
    getListTotal none
        (Json.obj [("data", Json.arr [Json.null, Json.null, Json.null])]) =
      Json.num 3 ∧
    getListTotal none (Json.arr [Json.null]) = Json.num 0 := by
  have H1 := (claim_C3_amended (Json.obj [("total", Json.num 7)]) (by decide)).1
    (Json.num 7) rfl (by decide)
  have H2 := ((claim_C3_amended
    (Json.obj [("data", Json.arr [Json.null, Json.null, Json.null])])
    (by decide)).2.1 (fun t ht => by
      have hnone : Json.getProp
          (Json.obj [("data", Json.arr [Json.null, Json.null, Json.null])])
          "total" = none := rfl
      rw [hnone] at ht
      exact Option.noConfusion ht)).1 [Json.null, Json.null, Json.null] rfl
  have H3 := (claim_C3_amended (Json.arr [Json.null]) (by decide)).2.2
    [Json.null] rfl
  exact ⟨H1, H2, H3⟩

/-- C4 counterexample: a failed response with empty status text whose
body parses to `{}` is normalized to an error whose `message` is the
empty string — `data.message || data.error || response.statusText` has
no non-empty fallback on this path. -/
theorem claim_C4_counterexample :
    (handleError ⟨false, 500, "", Except.ok (Json.obj [])⟩).message = Json.str "" ∧
    (Json.str "").isNonEmptyStr = false :=
  ⟨rfl, rfl⟩

theorem strOrAbsent_cases (data : Json) (k : String)
    (h : strOrAbsent data k = true) :
    data.getProp k = none ∨ ∃ s, data.getProp k = some (Json.str s) := by
  unfold strOrAbsent at h
  cases hEq : data.getProp k with
  | none => exact Or.inl rfl
  | some v =>
      rw [hEq] at h
      cases v with
      | str s => exact Or.inr ⟨s, rfl⟩
      | null => exact absurd h (by simp)
      | bool b => exact absurd h (by simp)
      | num n => exact absurd h (by simp)
      | arr xs => exact absurd h (by simp)
      | obj fs => exact absurd h (by simp)

theorem msgChain2_nonempty (eo : Option Json) (stx : String) (hst : stx ≠ "")
    (he : eo = none ∨ ∃ s, eo = some (Json.str s)) :
    (jsOrP eo (.str stx)).isNonEmptyStr = true := by
  rcases he with he | ⟨s, he⟩
  · simp [he, jsOrP, Json.isNonEmptyStr, hst]
  · by_cases hs : s = ""
    · simp [he, jsOrP, Json.truthy, Json.isNonEmptyStr, hs, hst]
    · simp [he, jsOrP, Json.truthy, Json.isNonEmptyStr, hs]

theorem msgChain_nonempty (mo eo : Option Json) (stx : String) (hst : stx ≠ "")
    (hm : mo = none ∨ ∃ s, mo = some (Json.str s))
    (he : eo = none ∨ ∃ s, eo = some (Json.str s)) :
    (jsOrP mo (jsOrP eo (.str stx))).isNonEmptyStr = true := by
  rcases hm with hm | ⟨s, hm⟩
  · rw [hm]
    exact msgChain2_nonempty eo stx hst he
  · by_cases hs : s = ""
    · rw [hm]
      simpa [jsOrP, Json.truthy, hs] using msgChain2_nonempty eo stx hst he
    · simp [hm, jsOrP, Json.truthy, Json.isNonEmptyStr, hs]

/-- C4 amended: `handleError` always yields an error value (carrying
the response's status code); its message is a non-empty string whenever
the body fails to parse, or parses to `null`, or — for a parsed non-null
body — the status text is non-empty and the body's `message`/`error`
fields, where present, are strings.  (When the parsed body supplies no
truthy `message`/`error` and the status text is empty, the message is
the empty string — the counterexample above.) -/
theorem claim_C4_amended (r : RespDesc) :
    (handleError r).statusCode = some r.status ∧
    (∀ e, r.body = .error e → (handleError r).message.isNonEmptyStr = true) ∧
    (r.body = .ok Json.null → (handleError r).message.isNonEmptyStr = true) ∧
    (∀ data, r.body = .ok data → data ≠ Json.null → r.statusText ≠ "" →
      strOrAbsent data "message" = true → strOrAbsent data "error" = true →
      (handleError r).message.isNonEmptyStr = true) := by
  refine ⟨?_, ?_, ?_, ?_⟩
  · cases hb : r.body with
    | error e => simp [handleError, hb]
    | ok data => cases data <;> simp [handleError, hb]
  · intro e he
    by_cases hst : r.statusText = "" <;>
      simp [handleError, he, Json.isNonEmptyStr, hst]
  · intro hb
    by_cases hst : r.statusText = "" <;>
      simp [handleError, hb, Json.isNonEmptyStr, hst]
  · intro data hb hnn hst hm he
    have hmsg : (handleError r).message =
        jsOrP (data.getProp "message")
          (jsOrP (data.getProp "error") (.str r.statusText)) := by
      cases data with
      | null => exact absurd rfl hnn
      | bool b => simp [handleError, hb]
      | num n => simp [handleError, hb]
      | str s => simp [handleError, hb]
      | arr xs => simp [handleError, hb]
      | obj fs => simp [handleError, hb]
    rw [hmsg]
    exact msgChain_nonempty _ _ _ hst (strOrAbsent_cases data "message" hm)
      (strOrAbsent_cases data "error" he)

/-- Witness for C4 (amended): the spec's own example — status 404,
status text `Not Found`, body `{message: "User not found"}` — yields a
normalized error with status code 404 and a non-empty string message. -/
theorem claim_C4_amended_witness :
    (handleError ⟨false, 404, "Not Found",
        Except.ok (Json.obj [("message", Json.str "User not found")])⟩).statusCode =
      some 404 ∧
    (handleError ⟨false, 404, "Not Found",
        Except.ok (Json.obj [("message", Json.str "User not found")])⟩).message.isNonEmptyStr =
      true := by
  have H := claim_C4_amended ⟨false, 404, "Not Found",
    Except.ok (Json.obj [("message", Json.str "User not found")])⟩
  exact ⟨H.1, H.2.2.2 (Json.obj [("message", Json.str "User not found")]) rfl
    (by decide) (by decide) (by decide) (by decide)⟩

end DP
